import Mathlib

/-!
Shallow embedding of the Simple LMK reclaim engine
(drivers/android style simple_lmk.c of this repository).

Machine integers: size fields and page accumulators are C unsigned long
(64-bit); additions are taken mod 2^64. The comparator victim_cmp returns a
C int: the unsigned 64-bit difference is truncated to its low 32 bits and
read as a twos-complement value.
-/

namespace SimpleLmk

/-- 2^64, the modulus of C unsigned long arithmetic. -/
def U64 : Nat := 18446744073709551616

/-- 2^32, the modulus of C unsigned int arithmetic. -/
def U32 : Nat := 4294967296

/-- 2^31, the first value that is negative as a twos-complement int. -/
def I32MIN : Nat := 2147483648

/-- MAX_VICTIMS from the source: capacity of the victims array. -/
def MAX_VICTIMS : Nat := 1024

/-- SHRT_MAX: initial value of min_adj in find_victims. -/
def SHRT_MAX : Nat := 32767

/-- Read the low 32 bits of a natural number as a twos-complement int,
modelling the C conversion of an unsigned difference to int. -/
def toInt32 (n : Nat) : Int :=
  if n % U32 < I32MIN then (n % U32 : Int) else (n % U32 : Int) - U32

/-- Unsigned 64-bit subtraction a - b (mod 2^64). -/
def sub64 (a b : Nat) : Nat := (a % U64 + (U64 - b % U64)) % U64

/-- A snapshot of one process as find_victims observes it: an identity
(standing for the task and its mm pointer), the oom_score_adj snapshot
(a C short), the two ineligibility conditions of lines 95-97, whether
find_lock_task_mm succeeds, and the total mm page count. -/
structure Task where
  id : Nat
  adj : Int
  flagged : Bool
  emptyExiting : Bool
  has_mm : Bool
  size : Nat
deriving DecidableEq, Repr

/-- One victim_info record: the task identity, its adj at scan time and the
recorded size (an unsigned long, hence reduced mod 2^64). -/
structure VInfo where
  id : Nat
  adj : Int
  size : Nat
deriving DecidableEq, Repr

/-- Eligibility filter of find_victims lines 95-98: positive adj, not group
exiting or coredumping, not an exiting empty thread group. -/
def eligible (t : Task) : Bool :=
  decide (0 ≤ t.adj) && !t.flagged && !t.emptyExiting

/-- The bucket array task_bucket, as a total map from adj index to the
intrusive chain stored there (head = most recently prepended task). -/
def BucketMap : Type := Nat → List Task

/-- The all-empty bucket array (static initialization of task_bucket). -/
def emptyBuckets : BucketMap := fun _ => []

/-- State of the first pass of find_victims: the bucket array plus the
running min_adj and max_adj trackers. -/
structure BucketState where
  bucket : BucketMap
  min_adj : Nat
  max_adj : Nat

/-- First pass of find_victims (lines 81-109): prepend each eligible task
to the bucket matching its adj and track min and max adj. -/
def bucketTasks : List Task → BucketState → BucketState
  | [], s => s
  | t :: ts, s =>
    if eligible t then
      let a := t.adj.toNat
      bucketTasks ts
        { bucket := fun j => if j = a then t :: s.bucket j else s.bucket j
          min_adj := min s.min_adj a
          max_adj := max s.max_adj a }
    else
      bucketTasks ts s

/-- victim_cmp (lines 47-53): rhs->size - lhs->size computed on unsigned
longs and returned as a C int. -/
def victim_cmp (lhs rhs : VInfo) : Int :=
  toInt32 (sub64 rhs.size lhs.size)

/-- Insert v into l, placing it before the first element w with
victim_cmp v w ≤ 0 (i.e. at its position in the comparator order). -/
def victimInsert (v : VInfo) : List VInfo → List VInfo
  | [] => [v]
  | w :: ws => if victim_cmp v w ≤ 0 then v :: w :: ws else w :: victimInsert v ws

/-- Comparison sort driven by victim_cmp, modelling the kernel library
sort() call of lines 152-153 and 217-218. Modelled from the spec: the
sort() routine itself is kernel library code absent from src/; the spec
describes the call as sorting by the comparator (descending size), so it
is embedded as an insertion sort that respects victim_cmp exactly. -/
def victimSort : List VInfo → List VInfo
  | [] => []
  | v :: vs => victimInsert v (victimSort vs)

/-- Chain walk of one bucket (lines 123-142): for each task whose mm can
be locked, append a victim record and accumulate its size into
pages_found (unsigned long); stop as soon as the table reaches
MAX_VICTIMS entries. -/
def walkChain : List Task → List VInfo → Nat → List VInfo × Nat
  | [], vs, pf => (vs, pf)
  | t :: rest, vs, pf =>
    if t.has_mm then
      let v : VInfo := ⟨t.id, t.adj, t.size % U64⟩
      let vs2 := vs ++ [v]
      let pf2 := (pf + v.size) % U64
      if vs2.length = MAX_VICTIMS then (vs2, pf2) else walkChain rest vs2 pf2
    else
      walkChain rest vs pf

/-- Clear buckets minA, minA+1, ..., minA+n-1, modelling the memset of
lines 158-160 over the index range [min_adj, i). -/
def memsetRange (b : BucketMap) (minA n : Nat) : BucketMap :=
  fun j => if minA ≤ j ∧ j < minA + n then [] else b j

/-- Result of find_victims: the bucket array after the scan, the victims
table contents, pages_found, the consumed bucket indices in visit order,
and the sorted slice appended for each consumed bucket that recorded at
least one victim. -/
structure ScanResult where
  bucket : BucketMap
  victims : List VInfo
  pages_found : Nat
  visited : List Nat
  slices : List (List VInfo)

/-- Bucket consumption loop of find_victims (lines 112-163). The fuel n
covers indices minA+n-1 down to minA, mirroring the countdown from
max_adj to min_adj; each non-empty bucket is cleared, its chain walked,
the newly appended slice sorted, and the loop breaks (zeroing all
remaining lower buckets) once the table is full or pages_found meets the
target. -/
def consumeBuckets (minA target : Nat) :
    Nat → BucketMap → List VInfo → Nat → List Nat → List (List VInfo) → ScanResult
  | 0, b, vs, pf, vis, sls => ⟨b, vs, pf, vis, sls⟩
  | n + 1, b, vs, pf, vis, sls =>
    let i := minA + n
    let chain := b i
    if chain.isEmpty then
      consumeBuckets minA target n b vs pf vis sls
    else
      let b2 : BucketMap := fun j => if j = i then [] else b j
      let old := vs.length
      let w := walkChain chain vs pf
      if w.1.length = old then
        consumeBuckets minA target n b2 w.1 w.2 (vis ++ [i]) sls
      else
        let slice := victimSort (w.1.drop old)
        let vs2 := w.1.take old ++ slice
        if vs2.length = MAX_VICTIMS ∨ target ≤ w.2 then
          ⟨memsetRange b2 minA n, vs2, w.2, vis ++ [i], sls ++ [slice]⟩
        else
          consumeBuckets minA target n b2 vs2 w.2 (vis ++ [i]) (sls ++ [slice])

/-- find_victims (lines 74-167): bucket all eligible tasks, then consume
buckets from max_adj down to min_adj. The target parameter is the
configured MIN_FREE_PAGES value. -/
def find_victims (tasks : List Task) (target : Nat) (b0 : BucketMap) : ScanResult :=
  let s := bucketTasks tasks ⟨b0, SHRT_MAX, 0⟩
  consumeBuckets s.min_adj target (s.max_adj + 1 - s.min_adj) s.bucket [] 0 [] []

/-- Core loop of process_victims (lines 178-189): walk the table keeping
(and accumulating) victims while pages_found is below the target, and
releasing every victim reached once the target is met. Returns
nr_to_kill together with the per-index keep/release decision (true =
kept for killing, false = released via task_unlock). -/
def pvLoop (target : Nat) : List VInfo → Nat → Nat × List Bool
  | [], _ => (0, [])
  | v :: rest, pf =>
    if target ≤ pf then
      let r := pvLoop target rest pf
      (r.1, false :: r.2)
    else
      let r := pvLoop target rest ((pf + v.size) % U64)
      (r.1 + 1, true :: r.2)

/-- process_victims (lines 169-192): returns nr_to_kill for the first
vlen victims, starting with pages_found = 0. -/
def process_victims (target : Nat) (vs : List VInfo) : Nat :=
  (pvLoop target vs 0).1

/-- Observable outcome of one scan_and_kill invocation (lines 194-287):
whether the cycle aborted with the rate-limited log, the final contents
of the victims table, nr_found and pages_found from the scan, the final
nr_to_kill, the published nr_victims value (none when the cycle aborts
before publishing), the list of victims actually sent SIGKILL, whether
the completion wait was entered, and the scan instrumentation. -/
structure KillOutcome where
  aborted : Bool
  table : List VInfo
  nr_found : Nat
  pages_found : Nat
  nr_to_kill : Nat
  published : Option Nat
  killed : List VInfo
  waited : Bool
  visited : List Nat
  bucket : BucketMap

/-- scan_and_kill (lines 194-287): scan, abort if nothing was found,
otherwise run the two-phase selector when pages_found exceeds the
target, publish nr_victims, kill the selected prefix and wait for
completion or timeout. -/
def scan_and_kill (tasks : List Task) (target : Nat) (b0 : BucketMap) : KillOutcome :=
  let r := find_victims tasks target b0
  if r.victims.length = 0 then
    ⟨true, r.victims, 0, r.pages_found, 0, none, [], false, r.visited, r.bucket⟩
  else
    let sel :=
      if target < r.pages_found then
        let k1 := process_victims target r.victims
        let t1 := victimSort (r.victims.take k1) ++ r.victims.drop k1
        let k2 := process_victims target (t1.take k1)
        (k2, t1)
      else
        (r.victims.length, r.victims)
    ⟨false, sel.2, r.victims.length, r.pages_found, sel.1, some sel.1,
      sel.2.take sel.1, true, r.visited, r.bucket⟩

/-! ### Completion tracker (simple_lmk_mm_freed) -/

/-- Cycle state seen by simple_lmk_mm_freed: the mm field of each victim
slot (none once cleared), the published nr_victims, the nr_killed
counter, and whether reclaim_done has been completed. -/
structure CycleState where
  victims : List (Option Nat)
  nr_victims : Nat
  nr_killed : Nat
  completed : Bool
deriving DecidableEq, Repr

/-- The search loop of simple_lmk_mm_freed (lines 315-322) restricted to
the scanned slots: returns the updated slot list if some slot still
holds mm, none when no slot matches. -/
def freedScan (mm : Nat) : List (Option Nat) → Option (List (Option Nat))
  | [] => none
  | some m :: rest =>
    if m = mm then some (none :: rest)
    else (freedScan mm rest).map (some m :: ·)
  | none :: rest => (freedScan mm rest).map (none :: ·)

/-- simple_lmk_mm_freed (lines 307-324), on the path where the read lock
is acquired: scan the first nr_victims slots for mm; on a match clear
the slot, increment nr_killed, and complete reclaim_done when nr_killed
reaches nr_victims. -/
def simple_lmk_mm_freed (s : CycleState) (mm : Nat) : CycleState :=
  match freedScan mm (s.victims.take s.nr_victims) with
  | none => s
  | some cleared =>
    { victims := cleared ++ s.victims.drop s.nr_victims
      nr_victims := s.nr_victims
      nr_killed := s.nr_killed + 1
      completed := s.completed || (s.nr_killed + 1 == s.nr_victims) }

/-- A whole confirmation window: fold a list of freed notifications over
the published state. -/
def applyFreed (s : CycleState) (ms : List Nat) : CycleState :=
  ms.foldl simple_lmk_mm_freed s

/-! ### Trigger coordinator and reclaim worker -/

/-- State shared by simple_lmk_trigger and the reclaim thread: the
needs_reclaim flag, the number of wake_up calls issued, and the number
of reclaim cycles the worker has run. -/
structure TrigState where
  needs_reclaim : Bool
  wakeups : Nat
  cycles : Nat
deriving DecidableEq, Repr

/-- simple_lmk_trigger (lines 326-330): cmpxchg needs_reclaim from 0 to
1; wake the worker only when the old value was 0. -/
def simple_lmk_trigger (s : TrigState) : TrigState :=
  if s.needs_reclaim then s else ⟨true, s.wakeups + 1, s.cycles⟩

/-- One pass of the reclaim thread loop (lines 298-302): when
needs_reclaim is set, run scan_and_kill (counted as one cycle) and clear
the flag; otherwise keep sleeping. -/
def workerRun (s : TrigState) : TrigState :=
  if s.needs_reclaim then ⟨false, s.wakeups, s.cycles + 1⟩ else s

/-! ### Pressure and display notifiers -/

/-- The blank value carried by an MSM_DRM_EVENT_BLANK notification. -/
inductive BlankVal
  | powerdown
  | unblank
  | otherVal
deriving DecidableEq, Repr

/-- A display notifier event: a blank event with its value and whether it
targets the primary display, or any other event type. -/
inductive DrmEvent
  | blank (bv : BlankVal) (primary : Bool)
  | other
deriving DecidableEq, Repr

/-- Display observer state: the screen_on flag and the stored
min_pressure value. -/
structure DisplayState where
  screen_on : Bool
  min_pressure : Nat
deriving DecidableEq, Repr

/-- msm_drm_notifier_callback (lines 341-371): on a primary-display blank
event, powerdown stores min_pressure 95 and clears screen_on; unblank
stores min_pressure 100 and sets screen_on; everything else is ignored. -/
def msm_drm_notifier_callback (s : DisplayState) (ev : DrmEvent) : DisplayState :=
  match ev with
  | .blank bv primary =>
    if primary then
      match bv with
      | .powerdown => if s.screen_on then ⟨false, 95⟩ else s
      | .unblank => if s.screen_on then s else ⟨true, 100⟩
      | .otherVal => s
    else s
  | .other => s

/-- simple_lmk_vmpressure_cb (lines 332-339): trigger reclaim exactly
when the reported pressure is at least 90. The display state is passed
to model the globals in scope, but the source body never reads
min_pressure or screen_on. -/
def simple_lmk_vmpressure_cb (_s : DisplayState) (pressure : Nat) : Bool :=
  decide (90 ≤ pressure)

/-! ### Derived notions used by the claims -/

/-- Mathematical (unwrapped) sum of the recorded sizes of a victim list. -/
def sumSizes (vs : List VInfo) : Nat :=
  (vs.map VInfo.size).sum

/-- Boolean test that a victim list is in non-increasing order of size. -/
def descBySize : List VInfo → Bool
  | [] => true
  | [_] => true
  | a :: b :: t => decide (b.size ≤ a.size) && descBySize (b :: t)

/-- Number of still-pending (uncleared) victim slots in a slot list. -/
def countSome (l : List (Option Nat)) : Nat :=
  l.countP (fun o => o.isSome)

/-- Invariant tying nr_killed to the pending slots: the published victim
count always equals nr_killed plus the number of slots still holding an
mm reference. It holds when the count is published and is preserved by
every freed notification. -/
def CycleInv (s : CycleState) : Prop :=
  s.nr_victims ≤ s.victims.length ∧
    s.nr_killed + countSome (s.victims.take s.nr_victims) = s.nr_victims

/-! ### Concrete inputs used by the scenario claims and witnesses -/

/-- The five eligible processes of the spec scenario, with importance and
size pairs (0,100),(0,50),(5,40),(5,400),(7,20). -/
def demoTasks : List Task :=
  [⟨1, 0, false, false, true, 100⟩, ⟨2, 0, false, false, true, 50⟩,
   ⟨3, 5, false, false, true, 40⟩, ⟨4, 5, false, false, true, 400⟩,
   ⟨5, 7, false, false, true, 20⟩]

/-- Two same-importance processes whose sizes differ by 2^32 pages,
exercising the int truncation in victim_cmp. -/
def cexTasks : List Task :=
  [⟨1, 0, false, false, true, 1⟩, ⟨2, 0, false, false, true, 4294967296⟩]

/-- A single ineligible (negative-adj) process. -/
def protectedTasks : List Task :=
  [⟨1, -1000, false, false, true, 500⟩]

/-! ## Lemmas -/

theorem sumSizes_nil : sumSizes [] = 0 := rfl

theorem sumSizes_cons (v : VInfo) (l : List VInfo) :
    sumSizes (v :: l) = v.size + sumSizes l := by
  simp [sumSizes]

theorem sumSizes_append (a b : List VInfo) :
    sumSizes (a ++ b) = sumSizes a + sumSizes b := by
  simp [sumSizes]

theorem victimInsert_perm (v : VInfo) (l : List VInfo) :
    List.Perm (victimInsert v l) (v :: l) := by
  induction l with
  | nil => simp [victimInsert]
  | cons w ws ih =>
    by_cases h : victim_cmp v w ≤ 0
    · simp [victimInsert, h]
    · simp only [victimInsert, if_neg h]
      exact (ih.cons w).trans (List.Perm.swap v w ws)

theorem victimSort_perm (l : List VInfo) : List.Perm (victimSort l) l := by
  induction l with
  | nil => exact List.Perm.refl _
  | cons v vs ih => exact (victimInsert_perm v (victimSort vs)).trans (ih.cons v)

theorem victimSort_length (l : List VInfo) :
    (victimSort l).length = l.length :=
  (victimSort_perm l).length_eq

theorem victimSort_sumSizes (l : List VInfo) :
    sumSizes (victimSort l) = sumSizes l :=
  ((victimSort_perm l).map VInfo.size).sum_eq

theorem mem_victimSort {v : VInfo} {l : List VInfo} :
    v ∈ victimSort l ↔ v ∈ l :=
  (victimSort_perm l).mem_iff

/-- For sizes below 2^31 the truncated comparator orders exactly by
descending size: victim_cmp v w is nonpositive precisely when the size
of w does not exceed the size of v. -/
theorem victim_cmp_le_iff {v w : VInfo} (hv : v.size < I32MIN) (hw : w.size < I32MIN) :
    victim_cmp v w ≤ 0 ↔ w.size ≤ v.size := by
  unfold victim_cmp toInt32 sub64
  unfold U64 U32 I32MIN at *
  split <;> omega

theorem descBySize_cons2 (a b : VInfo) (t : List VInfo) :
    descBySize (a :: b :: t) = (decide (b.size ≤ a.size) && descBySize (b :: t)) := rfl

theorem descBySize_cons_of {w : VInfo} {l : List VInfo} (h : descBySize l = true)
    (hh : ∀ a, l.head? = some a → a.size ≤ w.size) : descBySize (w :: l) = true := by
  cases l with
  | nil => rfl
  | cons a t =>
    rw [descBySize_cons2, Bool.and_eq_true, decide_eq_true_eq]
    exact ⟨hh a rfl, h⟩

theorem victimInsert_head (v : VInfo) (l : List VInfo) :
    (victimInsert v l).head? = some v ∨ (victimInsert v l).head? = l.head? := by
  cases l with
  | nil => left; rfl
  | cons w ws => by_cases h : victim_cmp v w ≤ 0 <;> simp [victimInsert, h]

theorem descBySize_insert {v : VInfo} {l : List VInfo} (hv : v.size < I32MIN)
    (hl : ∀ w ∈ l, w.size < I32MIN) (h : descBySize l = true) :
    descBySize (victimInsert v l) = true := by
  induction l with
  | nil => rfl
  | cons w ws ih =>
    have hw : w.size < I32MIN := hl w (by simp)
    have hws : ∀ x ∈ ws, x.size < I32MIN := fun x hx => hl x (by simp [hx])
    by_cases hc : victim_cmp v w ≤ 0
    · simp only [victimInsert, if_pos hc]
      rw [descBySize_cons2, Bool.and_eq_true, decide_eq_true_eq]
      exact ⟨(victim_cmp_le_iff hv hw).1 hc, h⟩
    · simp only [victimInsert, if_neg hc]
      have hvw : v.size ≤ w.size := by
        by_contra hcon
        push_neg at hcon
        exact hc ((victim_cmp_le_iff hv hw).2 (le_of_lt hcon))
      have hdws : descBySize ws = true := by
        cases ws with
        | nil => rfl
        | cons u us =>
          rw [descBySize_cons2, Bool.and_eq_true] at h
          exact h.2
      apply descBySize_cons_of (ih hws hdws)
      intro a ha
      rcases victimInsert_head v ws with h1 | h1
      · rw [h1] at ha
        cases ha
        exact hvw
      · rw [h1] at ha
        cases ws with
        | nil => cases ha
        | cons u us =>
          cases ha
          rw [descBySize_cons2, Bool.and_eq_true, decide_eq_true_eq] at h
          exact h.1

theorem descBySize_victimSort {l : List VInfo} (hl : ∀ w ∈ l, w.size < I32MIN) :
    descBySize (victimSort l) = true := by
  induction l with
  | nil => rfl
  | cons v vs ih =>
    exact descBySize_insert (hl v (by simp))
      (fun w hw => hl w (by simp [mem_victimSort.1 hw]))
      (ih fun w hw => hl w (by simp [hw]))

/-! ### process_victims lemmas -/

theorem pvLoop_stop {target : Nat} (vs : List VInfo) {pf : Nat} (h : target ≤ pf) :
    pvLoop target vs pf = (0, List.replicate vs.length false) := by
  induction vs with
  | nil => simp [pvLoop]
  | cons v rest ih => simp [pvLoop, if_pos h, ih, List.replicate_succ]

theorem pvLoop_le_length (target : Nat) (vs : List VInfo) (pf : Nat) :
    (pvLoop target vs pf).1 ≤ vs.length := by
  induction vs generalizing pf with
  | nil => simp [pvLoop]
  | cons v rest ih =>
    by_cases h : target ≤ pf
    · rw [pvLoop_stop _ h]
      simp
    · simp only [pvLoop, if_neg h, List.length_cons]
      exact Nat.succ_le_succ (ih _)

theorem pvLoop_decisions (target : Nat) (vs : List VInfo) (pf : Nat) :
    (pvLoop target vs pf).2 =
      List.replicate (pvLoop target vs pf).1 true ++
        List.replicate (vs.length - (pvLoop target vs pf).1) false := by
  induction vs generalizing pf with
  | nil => simp [pvLoop]
  | cons v rest ih =>
    by_cases h : target ≤ pf
    · rw [pvLoop_stop _ h]
      simp [List.replicate_succ]
    · simp only [pvLoop, if_neg h, List.length_cons]
      rw [ih]
      simp [List.replicate_succ, Nat.succ_sub_succ]

theorem pvLoop_sum (target : Nat) (vs : List VInfo) (pf : Nat) (hpf : pf < U64) :
    (pvLoop target vs pf).1 = vs.length ∨
      target ≤ (pf + sumSizes (vs.take (pvLoop target vs pf).1)) % U64 := by
  induction vs generalizing pf with
  | nil => left; simp [pvLoop]
  | cons v rest ih =>
    by_cases h : target ≤ pf
    · right
      rw [pvLoop_stop _ h]
      simpa [sumSizes, Nat.mod_eq_of_lt hpf] using h
    · simp only [pvLoop, if_neg h, List.length_cons]
      have hpf2 : (pf + v.size) % U64 < U64 := Nat.mod_lt _ (by norm_num [U64])
      rcases ih ((pf + v.size) % U64) hpf2 with h1 | h1
      · left
        rw [h1]
      · right
        rw [List.take_succ_cons, sumSizes_cons, ← Nat.add_assoc]
        rwa [Nat.mod_add_mod] at h1

/-! ### walkChain lemmas -/

theorem walkChain_ext (chain : List Task) (vs : List VInfo) (pf : Nat) :
    ∃ ext, (walkChain chain vs pf).1 = vs ++ ext ∧
      ∀ v ∈ ext, ∃ t, t ∈ chain ∧ v.size = t.size % U64 := by
  induction chain generalizing vs pf with
  | nil => exact ⟨[], by simp [walkChain], by simp⟩
  | cons t rest ih =>
    by_cases hm : t.has_mm
    · by_cases hlen : (vs ++ [(⟨t.id, t.adj, t.size % U64⟩ : VInfo)]).length = MAX_VICTIMS
      · refine ⟨[⟨t.id, t.adj, t.size % U64⟩], ?_, ?_⟩
        · simp only [walkChain, if_pos hm, if_pos hlen]
        · intro v hv
          rw [List.mem_singleton] at hv
          exact ⟨t, by simp, by rw [hv]⟩
      · rcases ih (vs ++ [(⟨t.id, t.adj, t.size % U64⟩ : VInfo)]) ((pf + t.size % U64) % U64)
          with ⟨ext, h1, h2⟩
        refine ⟨⟨t.id, t.adj, t.size % U64⟩ :: ext, ?_, ?_⟩
        · simp only [walkChain, if_pos hm, if_neg hlen]
          rw [h1, List.append_assoc, List.singleton_append]
        · intro v hv
          rcases List.mem_cons.1 hv with h | h
          · exact ⟨t, by simp, by rw [h]⟩
          · rcases h2 v h with ⟨u, hu1, hu2⟩
            exact ⟨u, List.mem_cons_of_mem _ hu1, hu2⟩
    · simp only [walkChain, if_neg hm]
      rcases ih vs pf with ⟨ext, h1, h2⟩
      refine ⟨ext, h1, fun v hv => ?_⟩
      rcases h2 v hv with ⟨u, hu1, hu2⟩
      exact ⟨u, List.mem_cons_of_mem _ hu1, hu2⟩

theorem walkChain_pf (chain : List Task) (vs : List VInfo) (pf : Nat)
    (h : pf = sumSizes vs % U64) :
    (walkChain chain vs pf).2 = sumSizes (walkChain chain vs pf).1 % U64 := by
  induction chain generalizing vs pf with
  | nil => simpa [walkChain] using h
  | cons t rest ih =>
    by_cases hm : t.has_mm
    · have hstep : (pf + t.size % U64) % U64 =
          sumSizes (vs ++ [(⟨t.id, t.adj, t.size % U64⟩ : VInfo)]) % U64 := by
        rw [h, sumSizes_append, sumSizes_cons, sumSizes_nil, Nat.add_zero, Nat.mod_add_mod]
      by_cases hlen : (vs ++ [(⟨t.id, t.adj, t.size % U64⟩ : VInfo)]).length = MAX_VICTIMS
      · simp only [walkChain, if_pos hm, if_pos hlen]
        exact hstep
      · simp only [walkChain, if_pos hm, if_neg hlen]
        exact ih _ _ hstep
    · simp only [walkChain, if_neg hm]
      exact ih vs pf h

theorem walkChain_len (chain : List Task) (vs : List VInfo) (pf : Nat)
    (h : vs.length < MAX_VICTIMS) :
    (walkChain chain vs pf).1.length ≤ MAX_VICTIMS := by
  induction chain generalizing vs pf with
  | nil =>
    simp only [walkChain]
    exact le_of_lt h
  | cons t rest ih =>
    by_cases hm : t.has_mm
    · by_cases hlen : (vs ++ [(⟨t.id, t.adj, t.size % U64⟩ : VInfo)]).length = MAX_VICTIMS
      · simp only [walkChain, if_pos hm, if_pos hlen]
        exact le_of_eq hlen
      · simp only [walkChain, if_pos hm, if_neg hlen]
        apply ih
        simp only [List.length_append, List.length_cons, List.length_nil] at hlen ⊢
        omega
    · simp only [walkChain, if_neg hm]
      exact ih vs pf h

theorem walkChain_le_len (chain : List Task) (vs : List VInfo) (pf : Nat) :
    vs.length ≤ (walkChain chain vs pf).1.length := by
  rcases walkChain_ext chain vs pf with ⟨ext, h1, _⟩
  rw [h1, List.length_append]
  exact Nat.le_add_right _ _

/-! ### bucketTasks lemmas -/

theorem bucketTasks_outside (ts : List Task) (s : BucketState)
    (h : ∀ j, j < s.min_adj ∨ s.max_adj < j → s.bucket j = []) :
    ∀ j, j < (bucketTasks ts s).min_adj ∨ (bucketTasks ts s).max_adj < j →
      (bucketTasks ts s).bucket j = [] := by
  induction ts generalizing s with
  | nil => simpa [bucketTasks] using h
  | cons t ts ih =>
    by_cases he : eligible t
    · simp only [bucketTasks, if_pos he]
      apply ih
      intro j hj
      simp only at hj
      have hj2 : (j < s.min_adj ∧ j < t.adj.toNat) ∨
          (s.max_adj < j ∧ t.adj.toNat < j) := by
        rcases hj with hj | hj
        · left
          exact ⟨lt_of_lt_of_le hj (min_le_left _ _), lt_of_lt_of_le hj (min_le_right _ _)⟩
        · right
          exact ⟨lt_of_le_of_lt (le_max_left _ _) hj, lt_of_le_of_lt (le_max_right _ _) hj⟩
      have hja : j ≠ t.adj.toNat := by omega
      simp only [if_neg hja]
      rcases hj2 with ⟨hj1, _⟩ | ⟨hj1, _⟩
      · exact h j (Or.inl hj1)
      · exact h j (Or.inr hj1)
    · simp only [bucketTasks, if_neg he]
      exact ih s h

theorem bucketTasks_mem (ts : List Task) (s : BucketState) :
    ∀ j t, t ∈ (bucketTasks ts s).bucket j → t ∈ ts ∨ t ∈ s.bucket j := by
  induction ts generalizing s with
  | nil =>
    intro j t ht
    right
    simpa [bucketTasks] using ht
  | cons u ts ih =>
    intro j t ht
    by_cases he : eligible u
    · simp only [bucketTasks, if_pos he] at ht
      rcases ih _ j t ht with h | h
      · exact Or.inl (List.mem_cons_of_mem _ h)
      · simp only at h
        by_cases hj : j = u.adj.toNat
        · rw [if_pos hj] at h
          rcases List.mem_cons.1 h with h2 | h2
          · exact Or.inl (by rw [h2]; exact List.mem_cons_self _ _)
          · exact Or.inr h2
        · rw [if_neg hj] at h
          exact Or.inr h
    · simp only [bucketTasks, if_neg he] at ht
      rcases ih s j t ht with h | h
      · exact Or.inl (List.mem_cons_of_mem _ h)
      · exact Or.inr h

/-! ### consumeBuckets lemmas -/

theorem consumeBuckets_pf (minA target : Nat) :
    ∀ (n : Nat) (b : BucketMap) (vs : List VInfo) (pf : Nat) (vis : List Nat)
      (sls : List (List VInfo)), pf = sumSizes vs % U64 →
      (consumeBuckets minA target n b vs pf vis sls).pages_found =
        sumSizes (consumeBuckets minA target n b vs pf vis sls).victims % U64 := by
  intro n
  induction n with
  | zero =>
    intro b vs pf vis sls h
    simpa [consumeBuckets] using h
  | succ n ih =>
    intro b vs pf vis sls h
    simp only [consumeBuckets]
    by_cases hc : (b (minA + n)).isEmpty = true
    · simp only [if_pos hc]
      exact ih b vs pf vis sls h
    · simp only [if_neg hc]
      by_cases h0 : (walkChain (b (minA + n)) vs pf).1.length = vs.length
      · simp only [if_pos h0]
        exact ih _ _ _ _ _ (walkChain_pf _ _ _ h)
      · simp only [if_neg h0]
        have hw2 := walkChain_pf (b (minA + n)) vs pf h
        have hsum : sumSizes ((walkChain (b (minA + n)) vs pf).1.take vs.length ++
            victimSort ((walkChain (b (minA + n)) vs pf).1.drop vs.length)) =
            sumSizes (walkChain (b (minA + n)) vs pf).1 := by
          rw [sumSizes_append, victimSort_sumSizes, ← sumSizes_append,
            List.take_append_drop]
        by_cases hstop : ((walkChain (b (minA + n)) vs pf).1.take vs.length ++
            victimSort ((walkChain (b (minA + n)) vs pf).1.drop vs.length)).length =
            MAX_VICTIMS ∨ target ≤ (walkChain (b (minA + n)) vs pf).2
        · simp only [if_pos hstop]
          rw [hsum]
          exact hw2
        · simp only [if_neg hstop]
          exact ih _ _ _ _ _ (by rw [hsum]; exact hw2)

theorem consumeBuckets_len (minA target : Nat) :
    ∀ (n : Nat) (b : BucketMap) (vs : List VInfo) (pf : Nat) (vis : List Nat)
      (sls : List (List VInfo)), vs.length < MAX_VICTIMS →
      (consumeBuckets minA target n b vs pf vis sls).victims.length ≤ MAX_VICTIMS := by
  intro n
  induction n with
  | zero =>
    intro b vs pf vis sls h
    simpa [consumeBuckets] using le_of_lt h
  | succ n ih =>
    intro b vs pf vis sls h
    simp only [consumeBuckets]
    by_cases hc : (b (minA + n)).isEmpty = true
    · simp only [if_pos hc]
      exact ih b vs pf vis sls h
    · simp only [if_neg hc]
      by_cases h0 : (walkChain (b (minA + n)) vs pf).1.length = vs.length
      · simp only [if_pos h0]
        exact ih _ _ _ _ _ (by rw [h0]; exact h)
      · simp only [if_neg h0]
        have hle : vs.length ≤ (walkChain (b (minA + n)) vs pf).1.length :=
          walkChain_le_len _ _ _
        have hwlen : (walkChain (b (minA + n)) vs pf).1.length ≤ MAX_VICTIMS :=
          walkChain_len _ _ _ h
        have hlen2 : ((walkChain (b (minA + n)) vs pf).1.take vs.length ++
            victimSort ((walkChain (b (minA + n)) vs pf).1.drop vs.length)).length =
            (walkChain (b (minA + n)) vs pf).1.length := by
          simp only [List.length_append, List.length_take, victimSort_length,
            List.length_drop]
          omega
        by_cases hstop : ((walkChain (b (minA + n)) vs pf).1.take vs.length ++
            victimSort ((walkChain (b (minA + n)) vs pf).1.drop vs.length)).length =
            MAX_VICTIMS ∨ target ≤ (walkChain (b (minA + n)) vs pf).2
        · simp only [if_pos hstop]
          exact le_trans (le_of_eq hlen2) hwlen
        · simp only [if_neg hstop]
          apply ih
          push_neg at hstop
          rw [hlen2] at hstop
          omega

theorem consumeBuckets_clears (minA target : Nat) :
    ∀ (n : Nat) (b : BucketMap) (vs : List VInfo) (pf : Nat) (vis : List Nat)
      (sls : List (List VInfo)),
      (∀ j, minA + n ≤ j → b j = []) → (∀ j, j < minA → b j = []) →
      ∀ j, (consumeBuckets minA target n b vs pf vis sls).bucket j = [] := by
  intro n
  induction n with
  | zero =>
    intro b vs pf vis sls hhi hlo j
    simp only [consumeBuckets]
    rcases Nat.lt_or_ge j minA with h | h
    · exact hlo j h
    · exact hhi j (by omega)
  | succ n ih =>
    intro b vs pf vis sls hhi hlo j
    simp only [consumeBuckets]
    by_cases hc : (b (minA + n)).isEmpty = true
    · simp only [if_pos hc]
      apply ih b vs pf vis sls _ hlo
      intro jj hjj
      rcases eq_or_lt_of_le hjj with he | hl
      · rw [← he]
        exact List.isEmpty_iff.1 hc
      · exact hhi jj (by omega)
    · simp only [if_neg hc]
      have hb2hi : ∀ jj, minA + n ≤ jj →
          (if jj = minA + n then ([] : List Task) else b jj) = [] := by
        intro jj hjj
        by_cases he : jj = minA + n
        · rw [if_pos he]
        · rw [if_neg he]
          exact hhi jj (by omega)
      have hb2lo : ∀ jj, jj < minA →
          (if jj = minA + n then ([] : List Task) else b jj) = [] := by
        intro jj hjj
        have hne : jj ≠ minA + n := by omega
        rw [if_neg hne]
        exact hlo jj hjj
      by_cases h0 : (walkChain (b (minA + n)) vs pf).1.length = vs.length
      · simp only [if_pos h0]
        exact ih _ _ _ _ _ hb2hi hb2lo j
      · simp only [if_neg h0]
        by_cases hstop : ((walkChain (b (minA + n)) vs pf).1.take vs.length ++
            victimSort ((walkChain (b (minA + n)) vs pf).1.drop vs.length)).length =
            MAX_VICTIMS ∨ target ≤ (walkChain (b (minA + n)) vs pf).2
        · simp only [if_pos hstop]
          show memsetRange _ minA n j = []
          unfold memsetRange
          by_cases hr : minA ≤ j ∧ j < minA + n
          · rw [if_pos hr]
          · rw [if_neg hr]
            rcases Nat.lt_or_ge j minA with hj | hj
            · exact hb2lo j hj
            · exact hb2hi j (by omega)
        · simp only [if_neg hstop]
          exact ih _ _ _ _ _ hb2hi hb2lo j

theorem consumeBuckets_slices (minA target : Nat) :
    ∀ (n : Nat) (b : BucketMap) (vs : List VInfo) (pf : Nat) (vis : List Nat)
      (sls : List (List VInfo)),
      (∀ j, ∀ t ∈ b j, t.size < I32MIN) →
      (∀ sl ∈ sls, descBySize sl = true) →
      ∀ sl ∈ (consumeBuckets minA target n b vs pf vis sls).slices,
        descBySize sl = true := by
  intro n
  induction n with
  | zero =>
    intro b vs pf vis sls _ hs
    simpa [consumeBuckets] using hs
  | succ n ih =>
    intro b vs pf vis sls hb hs
    simp only [consumeBuckets]
    by_cases hc : (b (minA + n)).isEmpty = true
    · simp only [if_pos hc]
      exact ih b vs pf vis sls hb hs
    · simp only [if_neg hc]
      have hb2 : ∀ j, ∀ t ∈ (if j = minA + n then ([] : List Task) else b j),
          t.size < I32MIN := by
        intro j t ht
        by_cases hj : j = minA + n
        · rw [if_pos hj] at ht
          exact absurd ht (List.not_mem_nil t)
        · rw [if_neg hj] at ht
          exact hb j t ht
      have hslice : descBySize
          (victimSort ((walkChain (b (minA + n)) vs pf).1.drop vs.length)) = true := by
        apply descBySize_victimSort
        intro w hwmem
        rcases walkChain_ext (b (minA + n)) vs pf with ⟨ext, h1, h2⟩
        rw [h1, List.drop_left] at hwmem
        rcases h2 w hwmem with ⟨t, ht1, ht2⟩
        have htb : t.size < I32MIN := hb _ t ht1
        rw [ht2, Nat.mod_eq_of_lt (lt_trans htb (by norm_num [I32MIN, U64]))]
        exact htb
      have hs2 : ∀ sl ∈ sls ++
          [victimSort ((walkChain (b (minA + n)) vs pf).1.drop vs.length)],
          descBySize sl = true := by
        intro sl hsl
        rcases List.mem_append.1 hsl with hm | hm
        · exact hs sl hm
        · rw [List.mem_singleton] at hm
          rw [hm]
          exact hslice
      by_cases h0 : (walkChain (b (minA + n)) vs pf).1.length = vs.length
      · simp only [if_pos h0]
        exact ih _ _ _ _ _ hb2 hs
      · simp only [if_neg h0]
        by_cases hstop : ((walkChain (b (minA + n)) vs pf).1.take vs.length ++
            victimSort ((walkChain (b (minA + n)) vs pf).1.drop vs.length)).length =
            MAX_VICTIMS ∨ target ≤ (walkChain (b (minA + n)) vs pf).2
        · simp only [if_pos hstop]
          exact hs2
        · simp only [if_neg hstop]
          exact ih _ _ _ _ _ hb2 hs2

/-! ### Completion-tracker lemmas -/

theorem countSome_map_some (l : List Nat) : countSome (l.map some) = l.length := by
  induction l with
  | nil => rfl
  | cons a t ih =>
    simp only [List.map_cons, countSome, List.countP_cons] at ih ⊢
    simp [ih]

theorem countSome_cons_some (m : Nat) (l : List (Option Nat)) :
    countSome (some m :: l) = countSome l + 1 := by
  simp [countSome, List.countP_cons]

theorem countSome_cons_none (l : List (Option Nat)) :
    countSome (none :: l) = countSome l := by
  simp [countSome, List.countP_cons]

theorem freedScan_some (mm : Nat) :
    ∀ (l l2 : List (Option Nat)), freedScan mm l = some l2 →
      l2.length = l.length ∧ countSome l = countSome l2 + 1 := by
  intro l
  induction l with
  | nil =>
    intro l2 h
    simp [freedScan] at h
  | cons o rest ih =>
    intro l2 h
    cases o with
    | some m =>
      by_cases hm : m = mm
      · simp only [freedScan, if_pos hm] at h
        cases h
        refine ⟨by simp, ?_⟩
        rw [countSome_cons_some, countSome_cons_none]
      · simp only [freedScan, if_neg hm] at h
        cases hfs : freedScan mm rest with
        | none =>
          rw [hfs] at h
          cases h
        | some r2 =>
          rw [hfs] at h
          simp only [Option.map_some'] at h
          cases h
          rcases ih r2 hfs with ⟨ih1, ih2⟩
          refine ⟨by simp [ih1], ?_⟩
          rw [countSome_cons_some, countSome_cons_some, ih2]
    | none =>
      simp only [freedScan] at h
      cases hfs : freedScan mm rest with
      | none =>
        rw [hfs] at h
        cases h
      | some r2 =>
        rw [hfs] at h
        simp only [Option.map_some'] at h
        cases h
        rcases ih r2 hfs with ⟨ih1, ih2⟩
        refine ⟨by simp [ih1], ?_⟩
        rw [countSome_cons_none, countSome_cons_none, ih2]

theorem mm_freed_inv {s : CycleState} (h : CycleInv s) (mm : Nat) :
    CycleInv (simple_lmk_mm_freed s mm) ∧
      (simple_lmk_mm_freed s mm).nr_victims = s.nr_victims ∧
      s.nr_killed ≤ (simple_lmk_mm_freed s mm).nr_killed := by
  cases hfs : freedScan mm (s.victims.take s.nr_victims) with
  | none =>
    simp only [simple_lmk_mm_freed, hfs]
    exact ⟨h, by simp, by simp⟩
  | some cleared =>
    simp only [simple_lmk_mm_freed, hfs]
    rcases freedScan_some mm _ cleared hfs with ⟨h1, h2⟩
    rcases h with ⟨hlen, hcount⟩
    have hcl : cleared.length = s.nr_victims := by
      rw [h1, List.length_take]
      omega
    have htake : (cleared ++ s.victims.drop s.nr_victims).take s.nr_victims = cleared := by
      rw [← hcl, List.take_left]
    refine ⟨⟨?_, ?_⟩, by simp, by omega⟩
    · show s.nr_victims ≤ (cleared ++ s.victims.drop s.nr_victims).length
      rw [List.length_append, hcl]
      exact Nat.le_add_right _ _
    · show s.nr_killed + 1 +
        countSome ((cleared ++ s.victims.drop s.nr_victims).take s.nr_victims) =
        s.nr_victims
      rw [htake]
      omega

theorem applyFreed_cons (s : CycleState) (m : Nat) (ms : List Nat) :
    applyFreed s (m :: ms) = applyFreed (simple_lmk_mm_freed s m) ms := rfl

theorem applyFreed_inv (ms : List Nat) :
    ∀ (s : CycleState), CycleInv s →
      CycleInv (applyFreed s ms) ∧
        (applyFreed s ms).nr_victims = s.nr_victims ∧
        s.nr_killed ≤ (applyFreed s ms).nr_killed := by
  induction ms with
  | nil =>
    intro s h
    exact ⟨h, rfl, le_refl _⟩
  | cons m ms ih =>
    intro s h
    rcases mm_freed_inv h m with ⟨h1, h2, h3⟩
    rcases ih (simple_lmk_mm_freed s m) h1 with ⟨g1, g2, g3⟩
    rw [applyFreed_cons]
    exact ⟨g1, by rw [g2, h2], le_trans h3 g3⟩

theorem cycleInv_killed_le {s : CycleState} (h : CycleInv s) :
    s.nr_killed ≤ s.nr_victims := by
  rcases h with ⟨_, hcount⟩
  omega

/-! ### Trigger-coordinator lemmas -/

theorem trigger_noop {s : TrigState} (h : s.needs_reclaim = true) :
    simple_lmk_trigger s = s := by
  simp [simple_lmk_trigger, h]

theorem trigger_iterate_pending (n : Nat) {s : TrigState}
    (h : s.needs_reclaim = true) : simple_lmk_trigger^[n] s = s := by
  induction n with
  | zero => rfl
  | succ n ih => rw [Function.iterate_succ_apply, trigger_noop h, ih]

/-! ### find_victims corollaries -/

theorem find_victims_pages (tasks : List Task) (target : Nat) (b0 : BucketMap) :
    (find_victims tasks target b0).pages_found =
      sumSizes (find_victims tasks target b0).victims % U64 := by
  simp only [find_victims]
  exact consumeBuckets_pf _ _ _ _ _ _ _ _ (by simp [sumSizes])

/-! ## Claim theorems -/

/-- C2: for the spec scenario of five eligible processes with importance
and size pairs (0,100),(0,50),(5,40),(5,400),(7,20) and a target of 60
pages, the scan consumes bucket 7 then bucket 5 and stops without ever
visiting bucket 0, and after the two selector phases the final kill set
is exactly the single process of importance 5 and size 400. -/
theorem c2_scenario_exact_kill_set :
    (find_victims demoTasks 60 emptyBuckets).visited = [7, 5] ∧
    (scan_and_kill demoTasks 60 emptyBuckets).nr_to_kill = 1 ∧
    (scan_and_kill demoTasks 60 emptyBuckets).killed = [⟨4, 5, 400⟩] := by
  decide

/-- C3 counterexample: the display observer stores min_pressure 95 on
powerdown and 100 on wake (so the stored threshold is lower with the
screen off, not higher), and the pressure callback triggers at pressure
90 with the screen off while even 89 fails with the screen on — so no
strictly higher pressure is required when the display is off. -/
theorem c3_counterexample :
    (msm_drm_notifier_callback ⟨true, 100⟩ (.blank .powerdown true)).min_pressure = 95 ∧
    (msm_drm_notifier_callback ⟨false, 95⟩ (.blank .unblank true)).min_pressure = 100 ∧
    simple_lmk_vmpressure_cb ⟨false, 95⟩ 90 = true ∧
    simple_lmk_vmpressure_cb ⟨true, 100⟩ 90 = true ∧
    simple_lmk_vmpressure_cb ⟨true, 100⟩ 89 = false := by
  decide

/-- C3 amended: the display observer merely stores min_pressure (95 on
powerdown, 100 on wake); the vmpressure callback never consults the
stored value or the screen state, and reclaim triggers exactly when the
reported pressure is at least 90, in both display states. -/
theorem c3_amended_threshold_ignored (s1 s2 : DisplayState) (p mp : Nat) :
    simple_lmk_vmpressure_cb s1 p = simple_lmk_vmpressure_cb s2 p ∧
    (simple_lmk_vmpressure_cb s1 p = true ↔ 90 ≤ p) ∧
    msm_drm_notifier_callback ⟨true, mp⟩ (.blank .powerdown true) = ⟨false, 95⟩ ∧
    msm_drm_notifier_callback ⟨false, mp⟩ (.blank .unblank true) = ⟨true, 100⟩ := by
  refine ⟨rfl, ?_, rfl, rfl⟩
  simp [simple_lmk_vmpressure_cb]

/-- C4 counterexample: two same-importance processes of sizes 1 and 2^32
pages form the only consumed bucket, so its newly appended slice is the
whole victims table; after the slice sort the recorded sizes are
[1, 4294967296], not non-increasing, because victim_cmp truncates the
unsigned 64-bit difference 2^32 - 1 to the positive C int 1. -/
theorem c4_counterexample :
    (find_victims cexTasks 60 emptyBuckets).slices =
      [[⟨1, 0, 1⟩, ⟨2, 0, 4294967296⟩]] ∧
    descBySize (find_victims cexTasks 60 emptyBuckets).victims = false := by
  decide

/-- C4 amended: for every scan in which all task sizes are below 2^31
pages (so the C int truncation in victim_cmp cannot overflow), every
newly-appended and sorted bucket slice is in non-increasing order of the
recorded size. -/
theorem c4_amended_slices_desc (tasks : List Task) (target : Nat)
    (h : ∀ t ∈ tasks, t.size < I32MIN) :
    ∀ sl ∈ (find_victims tasks target emptyBuckets).slices,
      descBySize sl = true := by
  simp only [find_victims]
  apply consumeBuckets_slices
  · intro j t ht
    rcases bucketTasks_mem tasks ⟨emptyBuckets, SHRT_MAX, 0⟩ j t ht with h1 | h1
    · exact h t h1
    · exact absurd h1 (List.not_mem_nil t)
  · intro sl hsl
    exact absurd hsl (List.not_mem_nil sl)

/-- C4 amended witness: the bucket-7 slice of the spec scenario, obtained
from the amended theorem at the concrete demo input. -/
theorem c4_amended_witness : descBySize [(⟨5, 7, 20⟩ : VInfo)] = true :=
  c4_amended_slices_desc demoTasks 60 (by decide) [⟨5, 7, 20⟩] (by decide)

/-- C5: starting from a published cycle state (nr_victims slots all still
holding their mm, nr_killed reset to 0), any sequence of freed
notifications leaves nr_killed at most the published victim count; and
each single notification leaves nr_killed unchanged (when no pending
victim matches, the state is untouched) or increments it by exactly one
(when a pending victim matches). -/
theorem c5_confirmations_bounded (ids : List Nat) (k : Nat) (ms : List Nat)
    (h : k ≤ ids.length) :
    (applyFreed ⟨ids.map some, k, 0, false⟩ ms).nr_killed ≤ k ∧
    (∀ (s : CycleState) (mm : Nat),
      s.nr_killed ≤ (simple_lmk_mm_freed s mm).nr_killed ∧
      (simple_lmk_mm_freed s mm).nr_killed ≤ s.nr_killed + 1 ∧
      (freedScan mm (s.victims.take s.nr_victims) = none →
        simple_lmk_mm_freed s mm = s) ∧
      (freedScan mm (s.victims.take s.nr_victims) ≠ none →
        (simple_lmk_mm_freed s mm).nr_killed = s.nr_killed + 1)) := by
  constructor
  · have hinv : CycleInv ⟨ids.map some, k, 0, false⟩ := by
      constructor
      · show k ≤ (ids.map some).length
        simpa using h
      · show 0 + countSome ((ids.map some).take k) = k
        rw [Nat.zero_add, ← List.map_take, countSome_map_some, List.length_take]
        omega
    rcases applyFreed_inv ms _ hinv with ⟨g1, g2, _⟩
    have hb := cycleInv_killed_le g1
    rw [g2] at hb
    exact hb
  · intro s mm
    cases hfs : freedScan mm (s.victims.take s.nr_victims) with
    | none => simp [simple_lmk_mm_freed, hfs]
    | some cleared => simp [simple_lmk_mm_freed, hfs]

/-- C5 witness: two published victims, four notifications (one duplicate
and one unmatched); the confirmed count stays at most 2. -/
theorem c5_witness :
    (applyFreed ⟨[11, 22].map some, 2, 0, false⟩ [11, 33, 22, 22]).nr_killed ≤ 2 :=
  (c5_confirmations_bounded [11, 22] 2 [11, 33, 22, 22] (by norm_num)).1

/-- C6: after any scan starting from the empty bucket array, every
importance bucket is empty again when find_victims returns — consumed
buckets are cleared inline, and on an early stop the remaining buckets
below the stop index are zeroed — so no bucket carries a stale chain
into the next cycle. -/
theorem c6_bucket_reuse_safety (tasks : List Task) (target : Nat) :
    ∀ j, (find_victims tasks target emptyBuckets).bucket j = [] := by
  have hout := bucketTasks_outside tasks ⟨emptyBuckets, SHRT_MAX, 0⟩
    (fun _ _ => rfl)
  simp only [find_victims]
  apply consumeBuckets_clears
  · intro j hj
    exact hout j (Or.inr (by omega))
  · intro j hj
    exact hout j (Or.inl hj)

/-- C7: a trigger finding the pending flag set is a no-op; from an idle
state, any positive number of trigger calls sets the flag and issues
exactly one wakeup, and the worker then runs exactly one reclaim cycle
(a second worker pass finds the flag clear and adds no cycle). -/
theorem c7_trigger_idempotent (s : TrigState) (n : Nat) :
    (s.needs_reclaim = true → simple_lmk_trigger s = s) ∧
    (s.needs_reclaim = false → 1 ≤ n →
      simple_lmk_trigger^[n] s = ⟨true, s.wakeups + 1, s.cycles⟩ ∧
      workerRun (simple_lmk_trigger^[n] s) = ⟨false, s.wakeups + 1, s.cycles + 1⟩ ∧
      workerRun (workerRun (simple_lmk_trigger^[n] s)) =
        ⟨false, s.wakeups + 1, s.cycles + 1⟩) := by
  constructor
  · intro h
    exact trigger_noop h
  · intro h hn
    obtain ⟨m, rfl⟩ : ∃ m, n = m + 1 := ⟨n - 1, by omega⟩
    have hstep : simple_lmk_trigger s = ⟨true, s.wakeups + 1, s.cycles⟩ := by
      simp [simple_lmk_trigger, h]
    have hiter : simple_lmk_trigger^[m + 1] s = ⟨true, s.wakeups + 1, s.cycles⟩ := by
      rw [Function.iterate_succ_apply, hstep, trigger_iterate_pending m rfl]
    refine ⟨hiter, ?_, ?_⟩
    · rw [hiter]
      simp [workerRun]
    · rw [hiter]
      simp [workerRun]

/-- C7 witness: three trigger calls from idle produce one wakeup, and the
worker runs exactly one cycle. -/
theorem c7_witness :
    simple_lmk_trigger^[3] (⟨false, 0, 0⟩ : TrigState) = ⟨true, 1, 0⟩ ∧
    workerRun (simple_lmk_trigger^[3] (⟨false, 0, 0⟩ : TrigState)) = ⟨false, 1, 1⟩ ∧
    workerRun (workerRun (simple_lmk_trigger^[3] (⟨false, 0, 0⟩ : TrigState))) =
      ⟨false, 1, 1⟩ :=
  (c7_trigger_idempotent ⟨false, 0, 0⟩ 3).2 rfl (by norm_num)

/-- C8: when the scan records no victims, the cycle aborts right after the
rate-limited log: nothing is killed, no victim count is published, the
completion wait is skipped, and the selection state is untouched. -/
theorem c8_abort_no_candidates (tasks : List Task) (target : Nat) (b0 : BucketMap)
    (h : (find_victims tasks target b0).victims = []) :
    (scan_and_kill tasks target b0).aborted = true ∧
    (scan_and_kill tasks target b0).killed = [] ∧
    (scan_and_kill tasks target b0).published = none ∧
    (scan_and_kill tasks target b0).waited = false ∧
    (scan_and_kill tasks target b0).nr_to_kill = 0 ∧
    (scan_and_kill tasks target b0).table = [] := by
  simp [scan_and_kill, h]

/-- C8 witness: a single negative-importance process yields an empty scan
and the aborted outcome. -/
theorem c8_witness :
    (scan_and_kill protectedTasks 60 emptyBuckets).aborted = true ∧
    (scan_and_kill protectedTasks 60 emptyBuckets).killed = [] ∧
    (scan_and_kill protectedTasks 60 emptyBuckets).published = none ∧
    (scan_and_kill protectedTasks 60 emptyBuckets).waited = false ∧
    (scan_and_kill protectedTasks 60 emptyBuckets).nr_to_kill = 0 ∧
    (scan_and_kill protectedTasks 60 emptyBuckets).table = [] :=
  c8_abort_no_candidates protectedTasks 60 emptyBuckets (by decide)

/-- C9: the scanner never grows the victims table past MAX_VICTIMS, for
any task population and any starting bucket array — every append happens
at an index below the capacity and reaching the capacity stops the scan
early instead of overflowing. -/
theorem c9_table_capacity_respected (tasks : List Task) (target : Nat)
    (b0 : BucketMap) :
    (find_victims tasks target b0).victims.length ≤ MAX_VICTIMS := by
  simp only [find_victims]
  exact consumeBuckets_len _ _ _ _ _ _ _ _ (by norm_num [MAX_VICTIMS])

/-- C10: the keep/release decisions of one process_victims pass form a
run of keeps followed only by releases — the kept victims are exactly
the table indices below nr_to_kill — and in every branch of
scan_and_kill the kill loop touches exactly that front run of the
table. -/
theorem c10_kill_set_is_front_run (target : Nat) (vs : List VInfo) :
    (pvLoop target vs 0).2 =
      List.replicate (process_victims target vs) true ++
        List.replicate (vs.length - process_victims target vs) false ∧
    ∀ (tasks : List Task) (b0 : BucketMap),
      (scan_and_kill tasks target b0).killed =
        (scan_and_kill tasks target b0).table.take
          (scan_and_kill tasks target b0).nr_to_kill := by
  constructor
  · exact pvLoop_decisions target vs 0
  · intro tasks b0
    simp only [scan_and_kill]
    by_cases hz : (find_victims tasks target b0).victims.length = 0
    · simp only [if_pos hz, List.take_zero]
    · simp only [if_neg hz]

/-- C1: for every scan, when the candidates the scan recorded together
hold at least the configured target of pages, the finally selected
victims also hold at least the target; otherwise every candidate the
scan found is selected. Candidates reachable by the scan are the ones it
records: the early-stop and capacity rules of find_victims make any
further process unreachable in that scan, and the otherwise branch of
the claim likewise speaks of the candidates found. -/
theorem c1_selection_meets_target (tasks : List Task) (target : Nat) :
    (target ≤ sumSizes (find_victims tasks target emptyBuckets).victims →
      target ≤ sumSizes (scan_and_kill tasks target emptyBuckets).killed) ∧
    (sumSizes (find_victims tasks target emptyBuckets).victims < target →
      (scan_and_kill tasks target emptyBuckets).killed =
        (find_victims tasks target emptyBuckets).victims) := by
  have hpf := find_victims_pages tasks target emptyBuckets
  constructor
  · intro htgt
    by_cases hz : (find_victims tasks target emptyBuckets).victims.length = 0
    · have hnil := List.length_eq_zero.1 hz
      rw [hnil] at htgt
      have ht0 : target = 0 := by simpa [sumSizes] using htgt
      simp [scan_and_kill, hz, ht0]
    · simp only [scan_and_kill, if_neg hz]
      by_cases hgt : target < (find_victims tasks target emptyBuckets).pages_found
      · simp only [if_pos hgt]
        set r := find_victims tasks target emptyBuckets with hr
        set k1 := process_victims target r.victims with hk1
        have hk1le : k1 ≤ r.victims.length := pvLoop_le_length target r.victims 0
        have htake1 : target ≤ sumSizes (r.victims.take k1) := by
          rcases pvLoop_sum target r.victims 0 (by norm_num [U64]) with hcase | hcase
          · rw [hk1]
            simp only [process_victims]
            rw [hcase, List.take_length]
            exact htgt
          · refine le_trans hcase ?_
            rw [Nat.zero_add]
            exact Nat.mod_le _ _
        have hsortlen : (victimSort (r.victims.take k1)).length = k1 := by
          rw [victimSort_length, List.length_take]
          omega
        have ht1take : (victimSort (r.victims.take k1) ++ r.victims.drop k1).take k1 =
            victimSort (r.victims.take k1) := List.take_left' hsortlen
        have hsum1 : target ≤ sumSizes ((victimSort (r.victims.take k1) ++
            r.victims.drop k1).take k1) := by
          rw [ht1take, victimSort_sumSizes]
          exact htake1
        set t1 := victimSort (r.victims.take k1) ++ r.victims.drop k1 with ht1
        set k2 := process_victims target (t1.take k1) with hk2
        have hlen3 : (t1.take k1).length = k1 := by
          rw [ht1, ht1take, hsortlen]
        have hk2le : k2 ≤ k1 :=
          le_trans (pvLoop_le_length target (t1.take k1) 0) (le_of_eq hlen3)
        have hsub : t1.take k2 = (t1.take k1).take k2 := by
          rw [List.take_take, min_eq_left hk2le]
        rcases pvLoop_sum target (t1.take k1) 0 (by norm_num [U64]) with hcase | hcase
        · have hk2eq : k2 = k1 := by
            rw [hk2]
            simp only [process_victims]
            rw [hcase, hlen3]
          rw [hk2eq]
          exact hsum1
        · rw [hsub]
          refine le_trans hcase ?_
          rw [Nat.zero_add]
          exact Nat.mod_le _ _
      · simp only [if_neg hgt, List.take_length]
        exact htgt
  · intro hlt
    by_cases hz : (find_victims tasks target emptyBuckets).victims.length = 0
    · have hnil := List.length_eq_zero.1 hz
      simp [scan_and_kill, hz, hnil]
    · have hcond : ¬ target < (find_victims tasks target emptyBuckets).pages_found := by
        rw [hpf]
        exact not_lt.2 (le_of_lt (lt_of_le_of_lt (Nat.mod_le _ _) hlt))
      simp only [scan_and_kill, if_neg hz, if_neg hcond, List.take_length]

/-- C1 witness: in the spec scenario the scan records 460 pages, at least
the target 60, and the finally selected victims hold 400 pages, still at
least the target. -/
theorem c1_witness :
    60 ≤ sumSizes (scan_and_kill demoTasks 60 emptyBuckets).killed :=
  (c1_selection_meets_target demoTasks 60).1 (by decide)

end SimpleLmk
